import Mathlib

/-!
Verification development for the merj repository: a git pull wrapper with an
AI conflict-resolution flow and a snapshot-indexing / semantic-retrieval
pipeline (Chunker, Embedder, VectorIndex, SnapshotIndexer, RetrievalEngine).

The JavaScript command-line scripts are embedded shallowly from the sources in
bin/.  The Python pipeline components are not part of the available sources
(only their documentation and HTTP callers are), so they are modelled from the
design specification; every such definition is marked in its doc comment.
-/

namespace Merj

/- ===== Part 1: the pull command of the second program in bin/merj.js ===== -/

/-- A JavaScript runtime error.  Only the case relevant to the pull command is
modelled: evaluating a free identifier that is bound nowhere in scope. -/
inductive JsError where
  | referenceError (name : String)
deriving DecidableEq, Repr

/-- The identifiers in scope in the second program of bin/merj.js: the
top-level constants and functions of the script (spawnSync, fs, path, run,
hasConflicts, getDiffs, pull, usage, main) together with the Node.js globals
the script uses.  Neither a git client nor a diff parser is required or
declared anywhere in that program. -/
def merjPullScriptEnv : List String :=
  ["spawnSync", "fs", "path", "run", "hasConflicts", "getDiffs", "pull",
   "usage", "main", "require", "module", "process", "console", "JSON",
   "Array", "Date", "fetch", "Promise"]

/-- Resolving an identifier against the scope: a name that is not bound
raises a ReferenceError, exactly as in JavaScript. -/
def lookupIdent (env : List String) (x : String) : Except JsError Unit :=
  if env.contains x then Except.ok () else Except.error (JsError.referenceError x)

/-- The parsed diff data getDiffs would return on success: the merge-base and
the per-file changed line numbers of the local-vs-base and remote-vs-base
diffs that pull later forwards to the backend. -/
structure ParsedDiffs where
  mergeBase : String
  localVsBase : List (String × List Nat)
  remoteVsBase : List (String × List Nat)
deriving DecidableEq, Repr

/-- Shallow embedding of getDiffs from the second program of bin/merj.js.
Its body evaluates the free identifier git three times (merge-base plus two
diffs) and then the free identifier parseDiff; identifier resolution happens
before any git operation runs, so the actual git output is abstracted by the
gitData argument and is only reached when every identifier resolves. -/
def getDiffsEval (env : List String) (gitData : ParsedDiffs) :
    Except JsError ParsedDiffs := do
  let _ ← lookupIdent env "git"
  let _ ← lookupIdent env "git"
  let _ ← lookupIdent env "git"
  let _ ← lookupIdent env "parseDiff"
  Except.ok gitData

/-- Outcome of the HTTP POST of diff data to the backend at
127.0.0.1:5000/api/data: the response was ok with status success, the
response carried a warning, or the fetch itself threw (server unreachable). -/
inductive FetchOutcome where
  | success
  | warning (w : String)
  | networkError (msg : String)
deriving DecidableEq, Repr

/-- What the RAG-posting block of pull did: whether the connection failure was
reported on the console, whether control flowed on past the block, and whether
retrieval context was actually obtained. -/
structure RagPostResult where
  reportedFailure : Bool
  continuedFlow : Bool
  usedRagContext : Bool
deriving DecidableEq, Repr

/-- Shallow embedding of the try/catch block of pull that posts diff data to
the backend (bin/merj.js, second program).  A successful response uses the
retrieval context; a warning response logs the warning and continues; a
thrown fetch error is caught, reported on the console, and the function
continues without retrieval context.  No branch aborts the process. -/
def ragPostStep (o : FetchOutcome) : RagPostResult :=
  match o with
  | FetchOutcome.success =>
      { reportedFailure := false, continuedFlow := true, usedRagContext := true }
  | FetchOutcome.warning _ =>
      { reportedFailure := false, continuedFlow := true, usedRagContext := false }
  | FetchOutcome.networkError _ =>
      { reportedFailure := true, continuedFlow := true, usedRagContext := false }

/-- Result of the conflict branch of pull: the outcome of the RAG-posting
block, and which later stages were reached. -/
structure ConflictFlowResult where
  rag : RagPostResult
  reachedRagPost : Bool
  reachedCodeRabbit : Bool
deriving DecidableEq, Repr

/-- Shallow embedding of the conflict branch of pull in the second program of
bin/merj.js: after conflicts are detected the script awaits getDiffs, builds
the jumbo payload, posts it to the backend inside try/catch, and then goes on
to the CodeRabbit review step.  A JavaScript error thrown while awaiting
getDiffs propagates out and ends the run before the POST. -/
def pullConflictBranch (env : List String) (gitData : ParsedDiffs)
    (fetch : FetchOutcome) : Except JsError ConflictFlowResult := do
  let _diffs ← getDiffsEval env gitData
  let r := ragPostStep fetch
  Except.ok { rag := r, reachedRagPost := true, reachedCodeRabbit := r.continuedFlow }

/-- Whether an Except computation finished without a thrown error. -/
def exceptOk : Except ε α → Bool
  | Except.ok _ => true
  | Except.error _ => false

/-- Claim C1: in the pull command, a failure to reach the RAG retrieval
pipeline (the HTTP POST of diff data to the backend) does not crash or abort
the run: the catch block reports the connection error and the
conflict-resolution flow continues without RAG context; moreover whether the
run finishes without a thrown error is independent of the fetch outcome. -/
theorem c1_rag_failure_degrades :
    (∀ msg, ragPostStep (FetchOutcome.networkError msg) =
      { reportedFailure := true, continuedFlow := true, usedRagContext := false }) ∧
    (∀ env gitData f g, exceptOk (pullConflictBranch env gitData f) =
      exceptOk (pullConflictBranch env gitData g)) := by
  constructor
  · intro msg
    rfl
  · intro env gitData f g
    cases h : getDiffsEval env gitData <;>
      simp [pullConflictBranch, bind, Except.bind, h, exceptOk]

/-- Claim C2: in the second program of bin/merj.js, neither git nor parseDiff
is bound anywhere in scope, so every execution of pull that reaches the
conflict branch throws a ReferenceError while awaiting getDiffs, and the POST
of diff data to the RAG pipeline later in pull is unreachable on every such
execution. -/
theorem c2_getdiffs_reference_error :
    merjPullScriptEnv.contains "git" = false ∧
    merjPullScriptEnv.contains "parseDiff" = false ∧
    (∀ gitData fetch, pullConflictBranch merjPullScriptEnv gitData fetch =
      Except.error (JsError.referenceError "git")) ∧
    (∀ gitData fetch,
      exceptOk (pullConflictBranch merjPullScriptEnv gitData fetch) = false) := by
  refine ⟨by decide, by decide, ?_, ?_⟩
  · intro gitData fetch
    rfl
  · intro gitData fetch
    rfl

/- ===== Part 2: bin/resolve_with_claude.js, output location and frame ===== -/

/-- Check whether a character sequence starts with the given pattern. -/
def startsSeq : List Char → List Char → Bool
  | [], _ => true
  | _ :: _, [] => false
  | a :: as, b :: bs => a == b && startsSeq as bs

/-- Check whether a character sequence contains the given pattern anywhere. -/
def containsSeq (pat : List Char) : List Char → Bool
  | [] => pat.isEmpty
  | c :: cs => startsSeq pat (c :: cs) || containsSeq pat cs

/-- The seven-character conflict-marker opener the resolver looks for. -/
def markerChars : List Char := ['<', '<', '<', '<', '<', '<', '<']

/-- A file content, modelled as its list of lines, contains a git conflict
marker somewhere. -/
def hasConflictMarker (lines : List String) : Bool :=
  lines.any (fun l => containsSeq markerChars l.data)

/-- The default MERGE_OUTPUT_ROOT of resolve_with_claude.js, as a path
component list: /tmp/merged_suggestions. -/
def defaultOutputRoot : List String := ["tmp", "merged_suggestions"]

/-- The path the resolver writes the merged suggestion to: the output root
joined with the conflicted file's repository-relative path. -/
def resolveOutPath (outputRoot relFile : List String) : List String :=
  outputRoot ++ relFile

/-- The file system after the resolver's single write: the merged suggestion
appears at the output path and every other path is untouched. -/
def resolveFsAfter (fsys : List String → Option (List String))
    (outputRoot relFile claudeOutput : List String) :
    List String → Option (List String) :=
  fun p => if p = resolveOutPath outputRoot relFile then some claudeOutput else fsys p

/-- Shallow embedding of the main flow of bin/resolve_with_claude.js on one
target file.  The script reads the conflicted file from the working tree at
repoRoot/relFile; if the file is missing, or carries no conflict marker, it
exits with an error before writing anything.  Otherwise it calls the model
twice and writes the merged suggestion to outputRoot/relFile (creating
directories as needed) as its only file-system write, returning the new file
system together with the list of written paths. -/
def resolveWithClaudeRun (fsys : List String → Option (List String))
    (repoRoot outputRoot relFile claudeOutput : List String) :
    Option ((List String → Option (List String)) × List (List String)) :=
  match fsys (repoRoot ++ relFile) with
  | none => none
  | some conflicted =>
      if hasConflictMarker conflicted then
        some (resolveFsAfter fsys outputRoot relFile claudeOutput,
              [resolveOutPath outputRoot relFile])
      else none

/-- Claim C10: on every successful run of resolve_with_claude.js on a
conflicted file, the merged suggestion is written only to the path under the
output root (MERGE_OUTPUT_ROOT, default /tmp/merged_suggestions) that mirrors
the file's repo-relative path, and — whenever the repository root differs
from the output root — the conflicted file in the caller's working tree and
every other path outside the output path are left byte-for-byte unchanged. -/
theorem c10_resolver_writes_only_under_output_root
    (fsys : List String → Option (List String))
    (repoRoot outputRoot relFile claudeOutput conflicted : List String)
    (hroot : repoRoot ≠ outputRoot)
    (hfile : fsys (repoRoot ++ relFile) = some conflicted)
    (hmark : hasConflictMarker conflicted = true) :
    resolveWithClaudeRun fsys repoRoot outputRoot relFile claudeOutput =
      some (resolveFsAfter fsys outputRoot relFile claudeOutput,
            [resolveOutPath outputRoot relFile]) ∧
    resolveFsAfter fsys outputRoot relFile claudeOutput (repoRoot ++ relFile) =
      fsys (repoRoot ++ relFile) ∧
    (∀ p, p ≠ resolveOutPath outputRoot relFile →
      resolveFsAfter fsys outputRoot relFile claudeOutput p = fsys p) := by
  have hne : repoRoot ++ relFile ≠ resolveOutPath outputRoot relFile := by
    intro h
    exact hroot (List.append_cancel_right h)
  refine ⟨?_, ?_, ?_⟩
  · simp [resolveWithClaudeRun, hfile, hmark]
  · simp [resolveFsAfter, hne]
  · intro p hp
    simp [resolveFsAfter, hp]

/-- A small concrete working tree for the resolver: one conflicted file at
home/repo/f.txt. -/
def demoResolverFs : List String → Option (List String) :=
  fun p =>
    if p = ["home", "repo", "f.txt"] then
      some ["<<<<<<< HEAD", "local line", "=======", "remote line", ">>>>>>> feature"]
    else none

/-- Witness for C10: on a concrete conflicted file the hypotheses hold, the
run succeeds, and the conflicted file in the working tree is unchanged while
the suggestion lands under the default output root. -/
theorem c10_resolver_writes_only_under_output_root_witness :
    (["home", "repo"] : List String) ≠ defaultOutputRoot ∧
    hasConflictMarker ["<<<<<<< HEAD", "local line", "=======", "remote line",
      ">>>>>>> feature"] = true ∧
    resolveFsAfter demoResolverFs defaultOutputRoot ["f.txt"] ["merged line"]
        (["home", "repo"] ++ ["f.txt"]) =
      demoResolverFs (["home", "repo"] ++ ["f.txt"]) := by
  refine ⟨by decide, by decide, ?_⟩
  exact (c10_resolver_writes_only_under_output_root demoResolverFs
    ["home", "repo"] defaultOutputRoot ["f.txt"] ["merged line"]
    ["<<<<<<< HEAD", "local line", "=======", "remote line", ">>>>>>> feature"]
    (by decide) (by decide) (by decide)).2.1

/- ===== Part 3: the RAG pipeline data model (modelled from the spec) ===== -/

/-- Modelled from the spec: the chunk_type variant of a CodeChunk — function,
class, the coalesced imports-and-globals unit, or another top-level unit.
The pipeline source (rag_pipeline/chunker.py) is not among the available
sources. -/
inductive ChunkType where
  | functionChunk
  | classChunk
  | importsAndGlobals
  | otherUnit
deriving DecidableEq, Repr

/-- Modelled from the spec: a CodeChunk, the syntactic unit of source code
produced by the Chunker.  Content is modelled as the list of source lines of
the chunk; start and end lines are 1-based and inclusive. -/
structure CodeChunk where
  filePath : String
  language : String
  content : List String
  chunkType : ChunkType
  startLine : Nat
  endLine : Nat
  nodeTypes : List String
deriving DecidableEq, Repr

/-- Modelled from the spec: a persisted record of a VectorIndex collection,
with identity key file_path:start_line-end_line, the chunk text as document,
its embedding, and the chunk metadata. -/
structure IndexRecord where
  id : String
  document : List String
  embedding : List ℚ
  filePath : String
  language : String
  chunkType : ChunkType
  startLine : Nat
  endLine : Nat
deriving DecidableEq, Repr

/-- Modelled from the spec: a retrieved nearest neighbor — the stored record
id and document together with its cosine distance from the query. -/
structure Neighbor where
  id : String
  document : List String
  distance : ℚ
deriving DecidableEq, Repr

/- ===== Part 4: VectorIndex and RetrievalEngine (modelled from the spec) ===== -/

/-- Modelled from the spec: the persistent vector store as a list of named
collections. -/
def lookupCol (store : List (String × List IndexRecord)) (name : String) :
    Option (List IndexRecord) :=
  (store.find? (fun p => p.1 == name)).map (fun p => p.2)

/-- A stored record turned into a query result with its distance from the
query embedding; the distance function (cosine distance) is a parameter of
the model. -/
def neighborOf (dist : List ℚ → List ℚ → ℚ) (emb : List ℚ) (r : IndexRecord) :
    Neighbor :=
  { id := r.id, document := r.document, distance := dist emb r.embedding }

/-- Insert a neighbor into a list kept sorted by ascending distance. -/
def insertByDist (n : Neighbor) : List Neighbor → List Neighbor
  | [] => [n]
  | m :: ms => if n.distance ≤ m.distance then n :: m :: ms else m :: insertByDist n ms

/-- All records of a collection ranked by ascending distance from the query
embedding. -/
def rankByDistance (dist : List ℚ → List ℚ → ℚ) (emb : List ℚ)
    (col : List IndexRecord) : List Neighbor :=
  (col.map (neighborOf dist emb)).foldr insertByDist []

/-- Modelled from the spec: VectorIndex query — at most k results ordered by
ascending distance; a query against a collection that does not exist returns
the empty result rather than an error. -/
def queryIndex (dist : List ℚ → List ℚ → ℚ)
    (store : List (String × List IndexRecord)) (name : String)
    (emb : List ℚ) (k : Nat) : List Neighbor :=
  match lookupCol store name with
  | none => []
  | some col => (rankByDistance dist emb col).take k

/-- Modelled from the spec: RetrievalEngine step 4 — discard any neighbor
whose distance exceeds the distance threshold; the comparison is inclusive
at the boundary. -/
def thresholdFilter (t : ℚ) (ns : List Neighbor) : List Neighbor :=
  ns.filter (fun n => decide (n.distance ≤ t))

/-- The best record with the same id as n among n and the later
occurrences ns: the lowest observed distance wins. -/
def bestFor (n : Neighbor) (ns : List Neighbor) : Neighbor :=
  ns.foldl (fun b m => if m.id == n.id && m.distance < b.distance then m else b) n

/-- Fueled deduplication of neighbors by record id, keeping for each id the
lowest observed distance.  The fuel is an upper bound on the list length. -/
def dedupFuel : Nat → List Neighbor → List Neighbor
  | 0, _ => []
  | _ + 1, [] => []
  | f + 1, n :: ns =>
      bestFor n ns :: dedupFuel f (ns.filter (fun m => !(m.id == n.id)))

/-- Modelled from the spec: RetrievalEngine step 5 — deduplicate neighbors
across query chunks by record id, keeping the lowest observed distance. -/
def dedupById (ns : List Neighbor) : List Neighbor :=
  dedupFuel ns.length ns

/-- Modelled from the spec: the compiled context artifact — the
caller-supplied local and remote query chunks, and the deduplicated list of
retrieved similar records. -/
structure CompiledContext where
  localChunks : List CodeChunk
  remoteChunks : List CodeChunk
  similar : List Neighbor
deriving DecidableEq, Repr

/-- Modelled from the spec: RetrievalEngine.retrieve — short-circuit on empty
query chunks without calling the embedder; otherwise embed every query chunk,
query the named collection for up to k neighbors per chunk, keep only
neighbors within the distance threshold, deduplicate by id, and compile the
structured context. -/
def retrieve (embedFn : List String → List ℚ) (dist : List ℚ → List ℚ → ℚ)
    (store : List (String × List IndexRecord)) (name : String)
    (localQ remoteQ : List CodeChunk) (k : Nat) (t : ℚ) : CompiledContext :=
  if localQ.isEmpty && remoteQ.isEmpty then
    { localChunks := [], remoteChunks := [], similar := [] }
  else
    let qs := localQ ++ remoteQ
    let raw := (qs.map (fun q => queryIndex dist store name (embedFn q.content) k)).flatten
    { localChunks := localQ, remoteChunks := remoteQ,
      similar := dedupById (thresholdFilter t raw) }

/-- A left fold whose step always returns either the accumulator or the
current element ends on the seed or a member of the list. -/
theorem foldl_pick_mem {α : Type} (step : α → α → α)
    (hstep : ∀ b m, step b m = b ∨ step b m = m) :
    ∀ (l : List α) (b : α), l.foldl step b ∈ b :: l := by
  intro l
  induction l with
  | nil => intro b; simp
  | cons m ms ih =>
      intro b
      have h := ih (step b m)
      rw [List.foldl_cons]
      rcases List.mem_cons.mp h with h1 | h1
      · rcases hstep b m with h2 | h2
        · rw [h1, h2]; exact List.mem_cons_self b (m :: ms)
        · rw [h1, h2]
          exact List.mem_cons.mpr (Or.inr (List.mem_cons_self m ms))
      · exact List.mem_cons.mpr (Or.inr (List.mem_cons.mpr (Or.inr h1)))

/-- The best-so-far fold underlying bestFor only ever returns its seed or a
member of the list. -/
theorem bestFor_mem (n : Neighbor) (ns : List Neighbor) : bestFor n ns ∈ n :: ns := by
  unfold bestFor
  apply foldl_pick_mem
  intro b m
  by_cases h : (m.id == n.id && decide (m.distance < b.distance)) = true
  · rw [if_pos h]
    exact Or.inr rfl
  · rw [if_neg h]
    exact Or.inl rfl

/-- Every output of the fueled deduplication comes from its input list. -/
theorem mem_dedupFuel {x : Neighbor} :
    ∀ (f : Nat) (l : List Neighbor), x ∈ dedupFuel f l → x ∈ l := by
  intro f
  induction f with
  | zero => intro l h; simp [dedupFuel] at h
  | succ f ih =>
      intro l h
      cases l with
      | nil => simp [dedupFuel] at h
      | cons n ns =>
          simp only [dedupFuel, List.mem_cons] at h
          rcases h with h | h
          · exact h ▸ bestFor_mem n ns
          · exact List.mem_cons.mpr
              (Or.inr (List.mem_filter.mp (ih _ h) |>.1))

/-- Every output of dedupById comes from its input list. -/
theorem mem_dedupById {x : Neighbor} {l : List Neighbor}
    (h : x ∈ dedupById l) : x ∈ l :=
  mem_dedupFuel l.length l h

/-- Every neighbor kept by the threshold filter is within the threshold. -/
theorem thresholdFilter_le {t : ℚ} {x : Neighbor} {l : List Neighbor}
    (h : x ∈ thresholdFilter t l) : x.distance ≤ t := by
  have := List.mem_filter.mp h
  simpa using this.2

/-- Claim C3: the distance filter applied by a RetrievalEngine retrieve call
is inclusive at the boundary — a neighbor at distance exactly the threshold
is kept, one at threshold plus any positive epsilon is discarded — and every
neighbor in the compiled context's similar section is within the
threshold. -/
theorem c3_threshold_boundary (t eps : ℚ) (ns : List Neighbor) (n : Neighbor)
    (hmem : n ∈ ns) :
    (n.distance = t → n ∈ thresholdFilter t ns) ∧
    (0 < eps → n.distance = t + eps → n ∉ thresholdFilter t ns) ∧
    (∀ embedFn dist store name localQ remoteQ k,
      ∀ m ∈ (retrieve embedFn dist store name localQ remoteQ k t).similar,
        m.distance ≤ t) := by
  refine ⟨?_, ?_, ?_⟩
  · intro hd
    exact List.mem_filter.mpr ⟨hmem, by simp [hd]⟩
  · intro heps hd hIn
    have hle := thresholdFilter_le hIn
    rw [hd] at hle
    linarith
  · intro embedFn dist store name localQ remoteQ k m hm
    unfold retrieve at hm
    split at hm
    · simp at hm
    · exact thresholdFilter_le (mem_dedupById hm)

/-- Two concrete neighbors sitting exactly at and just above the default
threshold one half. -/
def demoNeighborAt : Neighbor :=
  { id := "a.py:1-3", document := ["def f():", "  pass"], distance := 1 / 2 }

/-- A neighbor strictly above the threshold by one tenth. -/
def demoNeighborAbove : Neighbor :=
  { id := "b.py:4-9", document := ["def g():", "  pass"], distance := 1 / 2 + 1 / 10 }

/-- Witness for C3: at threshold one half, the boundary neighbor is kept and
the neighbor a positive epsilon above it is discarded. -/
theorem c3_threshold_boundary_witness :
    demoNeighborAt ∈ [demoNeighborAt, demoNeighborAbove] ∧
    demoNeighborAt ∈ thresholdFilter (1 / 2) [demoNeighborAt, demoNeighborAbove] ∧
    demoNeighborAbove ∉ thresholdFilter (1 / 2) [demoNeighborAt, demoNeighborAbove] := by
  refine ⟨List.mem_cons_self _ _, ?_, ?_⟩
  · exact (c3_threshold_boundary (1 / 2) (1 / 10)
      [demoNeighborAt, demoNeighborAbove] demoNeighborAt
      (List.mem_cons_self _ _)).1 rfl
  · exact (c3_threshold_boundary (1 / 2) (1 / 10)
      [demoNeighborAt, demoNeighborAbove] demoNeighborAbove
      (by simp)).2.1 (by norm_num) rfl

/-- A list of empty per-query results flattens to the empty list. -/
theorem flatten_map_nil {α β : Type} (l : List α) (f : α → List β)
    (h : ∀ a ∈ l, f a = []) : (l.map f).flatten = [] := by
  induction l with
  | nil => simp
  | cons x xs ih =>
      simp only [List.map_cons, List.flatten_cons, h x (List.mem_cons_self x xs)]
      simpa using ih (fun a ha => h a (List.mem_cons.mpr (Or.inr ha)))

/-- Claim C8: a VectorIndex query against a collection name that does not
exist in the store returns the empty result rather than an error, and a
RetrievalEngine retrieve against such a collection compiles a context whose
similar-patterns section is empty instead of the retrieval failing. -/
theorem c8_missing_collection_degrades
    (embedFn : List String → List ℚ) (dist : List ℚ → List ℚ → ℚ)
    (store : List (String × List IndexRecord)) (name : String)
    (localQ remoteQ : List CodeChunk) (emb : List ℚ) (k : Nat) (t : ℚ)
    (hnone : lookupCol store name = none) :
    queryIndex dist store name emb k = [] ∧
    (retrieve embedFn dist store name localQ remoteQ k t).similar = [] := by
  have hq : ∀ e k0, queryIndex dist store name e k0 = [] := by
    intro e k0
    simp [queryIndex, hnone]
  refine ⟨hq emb k, ?_⟩
  unfold retrieve
  split
  · rfl
  · simp only
    rw [flatten_map_nil _ _ (fun q _ => hq (embedFn q.content) k)]
    rfl

/-- A concrete query chunk used by the C8 witness. -/
def demoQueryChunk : CodeChunk :=
  { filePath := "src/app.py", language := "python",
    content := ["def handler():", "  return 1"],
    chunkType := ChunkType.functionChunk, startLine := 10, endLine := 11,
    nodeTypes := ["function_definition"] }

/-- Witness for C8: against an empty store the collection lookup misses, the
query is empty, and the compiled context's similar section is empty. -/
theorem c8_missing_collection_degrades_witness :
    lookupCol [] "lca_20241025_abc123de" = none ∧
    queryIndex (fun _ _ => 0) [] "lca_20241025_abc123de" [1, 0] 5 = [] ∧
    (retrieve (fun _ => [1, 0]) (fun _ _ => 0) [] "lca_20241025_abc123de"
      [demoQueryChunk] [] 5 (1 / 2)).similar = [] := by
  refine ⟨rfl, ?_, ?_⟩
  · exact (c8_missing_collection_degrades (fun _ => [1, 0]) (fun _ _ => 0) []
      "lca_20241025_abc123de" [demoQueryChunk] [] [1, 0] 5 (1 / 2) rfl).1
  · exact (c8_missing_collection_degrades (fun _ => [1, 0]) (fun _ _ => 0) []
      "lca_20241025_abc123de" [demoQueryChunk] [] [1, 0] 5 (1 / 2) rfl).2

/- ===== Part 5: VectorIndex upsert and SnapshotIndexer runs (spec model) ===== -/

/-- Modelled from the spec: the identity key of a stored record,
file_path:start_line-end_line. -/
def recordId (fp : String) (s e : Nat) : String :=
  fp ++ ":" ++ toString s ++ "-" ++ toString e

/-- Modelled from the spec: the persisted record built from a chunk and its
embedding, keyed by recordId. -/
def mkRecord (c : CodeChunk) (emb : List ℚ) : IndexRecord :=
  { id := recordId c.filePath c.startLine c.endLine, document := c.content,
    embedding := emb, filePath := c.filePath, language := c.language,
    chunkType := c.chunkType, startLine := c.startLine, endLine := c.endLine }

/-- The ids stored in a collection, in storage order. -/
def idsOf (col : List IndexRecord) : List String :=
  col.map (fun r => r.id)

/-- Whether a collection already holds the given id. -/
def hasId (col : List IndexRecord) (i : String) : Bool :=
  (idsOf col).contains i

/-- Modelled from the spec: VectorIndex upsert — a record whose id already
exists in the collection replaces the prior record in place; a new id is
appended at the end. -/
def upsert (col : List IndexRecord) (r : IndexRecord) : List IndexRecord :=
  if hasId col r.id then
    col.map (fun x => if x.id == r.id then r else x)
  else col ++ [r]

/-- Modelled from the spec: one SnapshotIndexer population pass — upsert all
records of the snapshot into the named collection, in order. -/
def indexRun (recs : List IndexRecord) (col : List IndexRecord) :
    List IndexRecord :=
  recs.foldl upsert col

/-- Modelled from the spec: the records a SnapshotIndexer run produces for a
snapshot, one per chunk, keyed by the id scheme
file_path:start_line-end_line. -/
def snapshotRecords (chunks : List CodeChunk) (embedOf : CodeChunk → List ℚ) :
    List IndexRecord :=
  chunks.map (fun c => mkRecord c (embedOf c))

/-- Replacing a present id leaves the stored id list unchanged. -/
theorem idsOf_upsert_present (col : List IndexRecord) (r : IndexRecord)
    (h : hasId col r.id = true) : idsOf (upsert col r) = idsOf col := by
  unfold upsert
  rw [if_pos h]
  unfold idsOf
  rw [List.map_map]
  apply List.map_congr_left
  intro x _
  simp only [Function.comp]
  by_cases hxr : (x.id == r.id) = true
  · have hx2 : x.id = r.id := by simpa using hxr
    simp [hxr, hx2]
  · simp [hxr]

/-- Inserting a fresh id appends exactly that id. -/
theorem idsOf_upsert_absent (col : List IndexRecord) (r : IndexRecord)
    (h : hasId col r.id = false) : idsOf (upsert col r) = idsOf col ++ [r.id] := by
  unfold upsert
  rw [if_neg (by simp [h])]
  unfold idsOf
  simp

/-- The record count after an upsert: unchanged when the id was present,
one more when it was fresh — never a duplicate. -/
theorem length_upsert (col : List IndexRecord) (r : IndexRecord) :
    (upsert col r).length =
      if hasId col r.id then col.length else col.length + 1 := by
  by_cases h : hasId col r.id = true
  · have := idsOf_upsert_present col r h
    have hlen := congrArg List.length this
    simpa [idsOf, h] using hlen
  · have hfalse : hasId col r.id = false := by
      simpa using h
    have := idsOf_upsert_absent col r hfalse
    have hlen := congrArg List.length this
    simpa [idsOf, hfalse] using hlen

/-- An id present before an upsert is still present after it. -/
theorem hasId_upsert_mono (col : List IndexRecord) (r : IndexRecord)
    (i : String) (h : hasId col i = true) : hasId (upsert col r) i = true := by
  by_cases hr : hasId col r.id = true
  · unfold hasId
    rw [idsOf_upsert_present col r hr]
    exact h
  · have hfalse : hasId col r.id = false := by simpa using hr
    unfold hasId
    rw [idsOf_upsert_absent col r hfalse]
    unfold hasId at h
    have hmem : i ∈ idsOf col := by simpa using h
    simp [hmem]

/-- The upserted record's id is present after the upsert. -/
theorem hasId_upsert_self (col : List IndexRecord) (r : IndexRecord) :
    hasId (upsert col r) r.id = true := by
  by_cases hr : hasId col r.id = true
  · unfold hasId
    rw [idsOf_upsert_present col r hr]
    exact hr
  · have hfalse : hasId col r.id = false := by simpa using hr
    unfold hasId
    rw [idsOf_upsert_absent col r hfalse]
    simp

/-- An id present before a whole population pass is still present after. -/
theorem hasId_indexRun_mono (recs : List IndexRecord)
    (col : List IndexRecord) (i : String) (h : hasId col i = true) :
    hasId (indexRun recs col) i = true := by
  induction recs generalizing col with
  | nil => exact h
  | cons r rs ih => exact ih (upsert col r) (hasId_upsert_mono col r i h)

/-- After a population pass every record of the pass has its id stored. -/
theorem hasId_indexRun_all (recs : List IndexRecord) (col : List IndexRecord) :
    ∀ r ∈ recs, hasId (indexRun recs col) r.id = true := by
  induction recs generalizing col with
  | nil => intro r h; simp at h
  | cons r0 rs ih =>
      intro r h
      rcases List.mem_cons.mp h with h1 | h1
      · subst h1
        exact hasId_indexRun_mono rs (upsert col r) r.id
          (hasId_upsert_self col r)
      · exact ih (upsert col r0) r h1

/-- Upserting records whose ids are all already stored leaves the stored
id list unchanged. -/
theorem idsOf_indexRun_present (recs : List IndexRecord)
    (col : List IndexRecord) (h : ∀ r ∈ recs, hasId col r.id = true) :
    idsOf (indexRun recs col) = idsOf col := by
  induction recs generalizing col with
  | nil => rfl
  | cons r0 rs ih =>
      have h0 : hasId col r0.id = true := h r0 (List.mem_cons_self r0 rs)
      have hstable := idsOf_upsert_present col r0 h0
      have hrest : ∀ r ∈ rs, hasId (upsert col r0) r.id = true := by
        intro r hr
        exact hasId_upsert_mono col r0 r.id (h r (List.mem_cons.mpr (Or.inr hr)))
      calc idsOf (indexRun (r0 :: rs) col)
          = idsOf (indexRun rs (upsert col r0)) := rfl
        _ = idsOf (upsert col r0) := ih (upsert col r0) hrest
        _ = idsOf col := hstable

/-- Claim C6: VectorIndex upsert is idempotent on record ids — an upsert with
an existing id replaces rather than duplicates, so indexing the same
snapshot's records twice into the same collection leaves the record count
equal to the count after the first run. -/
theorem c6_idempotent_upsert (chunks : List CodeChunk)
    (embedOf : CodeChunk → List ℚ) (col : List IndexRecord) :
    (∀ col0 r, (upsert col0 r).length =
      if hasId col0 r.id then col0.length else col0.length + 1) ∧
    (indexRun (snapshotRecords chunks embedOf)
        (indexRun (snapshotRecords chunks embedOf) col)).length =
      (indexRun (snapshotRecords chunks embedOf) col).length := by
  constructor
  · exact length_upsert
  · have hpresent := hasId_indexRun_all (snapshotRecords chunks embedOf) col
    have hstable := idsOf_indexRun_present (snapshotRecords chunks embedOf)
      (indexRun (snapshotRecords chunks embedOf) col) hpresent
    have hlen := congrArg List.length hstable
    simpa [idsOf] using hlen

/- ===== Part 6: the Embedder (modelled from the spec) ===== -/

/-- Split a list into batches: the first batch takes the head plus up to n
following elements, and so on, so every batch respects the service's
request-size limit.  The fuel argument is an upper bound on the list length
that makes the recursion structural. -/
def batchSplitFuel {α : Type} : Nat → Nat → List α → List (List α)
  | 0, _, _ => []
  | _ + 1, _, [] => []
  | f + 1, n, x :: xs => (x :: xs.take n) :: batchSplitFuel f n (xs.drop n)

/-- Modelled from the spec: the Embedder's batching of input chunks to
respect the external service's request-size limits; batch order follows
input order. -/
def batchSplit {α : Type} (n : Nat) (l : List α) : List (List α) :=
  batchSplitFuel l.length n l

/-- One batch sent to the embedding service: on success the returned vectors
are zipped back to their originating chunks by position; on a terminal
failure the whole batch is omitted from the result. -/
def embedBatch (service : List (List String) → Option (List (List ℚ)))
    (b : List CodeChunk) : List (CodeChunk × List ℚ) :=
  match service (b.map (fun c => c.content)) with
  | none => []
  | some vs => b.zip vs

/-- Modelled from the spec: Embedder.embed — batch the input chunks, send
each batch to the embedding service, and concatenate the per-batch
(chunk, vector) pairs in batch order. -/
def embed (service : List (List String) → Option (List (List ℚ)))
    (batchLimit : Nat) (chunks : List CodeChunk) : List (CodeChunk × List ℚ) :=
  ((batchSplit batchLimit chunks).map (embedBatch service)).flatten

/-- With enough fuel, the batches flatten back to the original list. -/
theorem flatten_batchSplitFuel {α : Type} (n : Nat) :
    ∀ (fuel : Nat) (l : List α), l.length ≤ fuel →
      (batchSplitFuel fuel n l).flatten = l := by
  intro fuel
  induction fuel with
  | zero =>
      intro l h
      have : l = [] := List.length_eq_zero.mp (Nat.le_zero.mp h)
      subst this
      rfl
  | succ f ih =>
      intro l h
      cases l with
      | nil => rfl
      | cons x xs =>
          have hdrop : (xs.drop n).length ≤ f := by
            have h1 : (xs.drop n).length ≤ xs.length := by
              rw [List.length_drop]
              exact Nat.sub_le xs.length n
            have h2 : xs.length ≤ f := Nat.le_of_succ_le_succ (by simpa using h)
            exact Nat.le_trans h1 h2
          calc (batchSplitFuel (f + 1) n (x :: xs)).flatten
              = (x :: xs.take n) ++ (batchSplitFuel f n (xs.drop n)).flatten := by
                rfl
            _ = (x :: xs.take n) ++ xs.drop n := by rw [ih (xs.drop n) hdrop]
            _ = x :: xs := by simp

/-- The batches of a list flatten back to the list itself. -/
theorem flatten_batchSplit {α : Type} (n : Nat) (l : List α) :
    (batchSplit n l).flatten = l :=
  flatten_batchSplitFuel n l.length l (Nat.le_refl _)

/-- Claim C7: when no batch fails, Embedder.embed returns one (chunk, vector)
pair per input chunk, in input order: the list of first components equals
the input chunk list and the lengths agree, so the i-th returned vector
corresponds to the i-th input chunk. -/
theorem c7_embed_order_preserving
    (service : List (List String) → Option (List (List ℚ)))
    (batchLimit : Nat) (chunks : List CodeChunk)
    (hlen : ∀ ts vs, service ts = some vs → vs.length = ts.length)
    (hok : ∀ b ∈ batchSplit batchLimit chunks,
      (service (b.map (fun c => c.content))).isSome = true) :
    (embed service batchLimit chunks).map Prod.fst = chunks ∧
    (embed service batchLimit chunks).length = chunks.length := by
  have hbatch : ∀ b ∈ batchSplit batchLimit chunks,
      (embedBatch service b).map Prod.fst = b := by
    intro b hb
    rcases Option.isSome_iff_exists.mp (hok b hb) with ⟨vs, hvs⟩
    have hv : vs.length = b.length := by
      have := hlen (b.map (fun c => c.content)) vs hvs
      simpa using this
    unfold embedBatch
    rw [hvs]
    exact List.map_fst_zip b vs (Nat.le_of_eq hv.symm)
  have hfst : (embed service batchLimit chunks).map Prod.fst = chunks := by
    unfold embed
    rw [List.map_flatten, List.map_map]
    have : (batchSplit batchLimit chunks).map
        (List.map Prod.fst ∘ embedBatch service) =
        (batchSplit batchLimit chunks).map id := by
      apply List.map_congr_left
      intro b hb
      simpa using hbatch b hb
    rw [this, List.map_id]
    exact flatten_batchSplit batchLimit chunks
  refine ⟨hfst, ?_⟩
  have := congrArg List.length hfst
  simpa using this

/-- Three small chunks used by the C7 witness. -/
def demoChunkA : CodeChunk :=
  { filePath := "m.py", language := "python", content := ["def a():", "  return 1"],
    chunkType := ChunkType.functionChunk, startLine := 1, endLine := 2,
    nodeTypes := ["function_definition"] }

/-- Second demo chunk. -/
def demoChunkB : CodeChunk :=
  { filePath := "m.py", language := "python", content := ["def b():", "  return 2"],
    chunkType := ChunkType.functionChunk, startLine := 4, endLine := 5,
    nodeTypes := ["function_definition"] }

/-- Third demo chunk. -/
def demoChunkC : CodeChunk :=
  { filePath := "m.py", language := "python", content := ["CONSTANT = 3"],
    chunkType := ChunkType.importsAndGlobals, startLine := 7, endLine := 7,
    nodeTypes := ["expression_statement"] }

/-- A deterministic embedding service that answers every batch with one
fixed-dimension vector per text. -/
def demoService : List (List String) → Option (List (List ℚ)) :=
  fun ts => some (ts.map (fun _ => [1, 0]))

/-- Witness for C7: a three-chunk input with batch limit one succeeds on
every batch and comes back in input order with length three. -/
theorem c7_embed_order_preserving_witness :
    (∀ b ∈ batchSplit 1 [demoChunkA, demoChunkB, demoChunkC],
      (demoService (b.map (fun c => c.content))).isSome = true) ∧
    (embed demoService 1 [demoChunkA, demoChunkB, demoChunkC]).map Prod.fst =
      [demoChunkA, demoChunkB, demoChunkC] ∧
    (embed demoService 1 [demoChunkA, demoChunkB, demoChunkC]).length = 3 := by
  have hlen : ∀ ts vs, demoService ts = some vs → vs.length = ts.length := by
    intro ts vs h
    have hv : ts.map (fun _ => ([1, 0] : List ℚ)) = vs := by
      simpa [demoService] using h
    rw [← hv]
    simp
  have hok : ∀ b ∈ batchSplit 1 [demoChunkA, demoChunkB, demoChunkC],
      (demoService (b.map (fun c => c.content))).isSome = true := by
    intro b _
    simp [demoService]
  refine ⟨hok, ?_, ?_⟩
  · exact (c7_embed_order_preserving demoService 1
      [demoChunkA, demoChunkB, demoChunkC] hlen hok).1
  · exact (c7_embed_order_preserving demoService 1
      [demoChunkA, demoChunkB, demoChunkC] hlen hok).2

/- ===== Part 7: SnapshotIndexer scoped working copy (modelled from spec) ===== -/

/-- How a pipeline stage of an index_snapshot run ends: success, a raised
error, or a cancellation arriving during the stage. -/
inductive RunSignal where
  | ok
  | failed (msg : String)
  | cancelled
deriving DecidableEq, Repr

/-- Observable events of an index_snapshot run: acquiring and releasing the
temporary working copy, running a stage, and surfacing a fatal error. -/
inductive SnapEvent where
  | acquireTemp
  | stageEvent (name : String)
  | releaseTemp
  | surfacedError (msg : String)
deriving DecidableEq, Repr

/-- Modelled from the spec: the body of index_snapshot between acquisition
and release — run the stages (chunking, embedding, upserting) in order,
stopping at the first failure or cancellation and propagating that signal. -/
def runStages : List (String × RunSignal) → List SnapEvent × RunSignal
  | [] => ([], RunSignal.ok)
  | (s, sig) :: rest =>
      match sig with
      | RunSignal.ok =>
          let r := runStages rest
          (SnapEvent.stageEvent s :: r.1, r.2)
      | RunSignal.failed m => ([SnapEvent.stageEvent s], RunSignal.failed m)
      | RunSignal.cancelled => ([SnapEvent.stageEvent s], RunSignal.cancelled)

/-- Modelled from the spec: index_snapshot — resolve the merge-base (fatal
if missing, before anything is acquired), then materialize the commit into a
temporary working copy with scoped acquisition: the release event is
appended after the body on every exit path, whether the body succeeded,
failed, or was cancelled. -/
def indexSnapshot (mergeBase : Option String)
    (stages : List (String × RunSignal)) : List SnapEvent × RunSignal :=
  match mergeBase with
  | none => ([SnapEvent.surfacedError "no merge-base"],
             RunSignal.failed "no merge-base")
  | some _ =>
      let body := runStages stages
      (SnapEvent.acquireTemp :: body.1 ++ [SnapEvent.releaseTemp], body.2)

/-- Whether the temporary working copy is still held after replaying an
event trace. -/
def tempHeld (evs : List SnapEvent) : Bool :=
  evs.foldl
    (fun h e =>
      match e with
      | SnapEvent.acquireTemp => true
      | SnapEvent.releaseTemp => false
      | _ => h) false

/-- Claim C9: on every execution of index_snapshot the temporary working
copy is released on every exit path — after any run, normal, failed, or
cancelled, the temporary checkout is no longer held, and whenever it was
acquired the release event is in the trace. -/
theorem c9_temp_checkout_never_leaks :
    (∀ mergeBase stages, tempHeld (indexSnapshot mergeBase stages).1 = false) ∧
    (∀ c stages, SnapEvent.releaseTemp ∈ (indexSnapshot (some c) stages).1) := by
  constructor
  · intro mergeBase stages
    cases mergeBase with
    | none => rfl
    | some c =>
        show tempHeld (SnapEvent.acquireTemp :: (runStages stages).1 ++
          [SnapEvent.releaseTemp]) = false
        unfold tempHeld
        rw [show SnapEvent.acquireTemp :: (runStages stages).1 ++
            [SnapEvent.releaseTemp] =
            (SnapEvent.acquireTemp :: (runStages stages).1) ++
            [SnapEvent.releaseTemp] from rfl]
        rw [List.foldl_append]
        rfl
  · intro c stages
    show SnapEvent.releaseTemp ∈ SnapEvent.acquireTemp :: (runStages stages).1 ++
      [SnapEvent.releaseTemp]
    simp

/- ===== Part 8: the Chunker (modelled from the spec) ===== -/

/-- Modelled from the spec: the slice of a file (given as its list of lines)
at [start_line, end_line], 1-based and inclusive. -/
def lineSlice (file : List String) (s e : Nat) : List String :=
  (file.drop (s - 1)).take (e + 1 - s)

/-- A top-level node of the per-language parse tree of one source file: its
grammar kind, its source text (as lines) and its 1-based inclusive line
range. -/
structure ParseNode where
  kind : String
  text : List String
  startLine : Nat
  endLine : Nat
deriving DecidableEq, Repr

/-- Modelled from the spec: the data-driven registry mapping a file extension
to its language and the set of top-level node kinds that become standalone
chunks. -/
def langRegistry : List (String × String × List String) :=
  [(".py", "python", ["function_definition", "class_definition", "decorated_definition"]),
   (".js", "javascript", ["function_declaration", "class_declaration",
      "lexical_declaration", "export_statement"]),
   (".go", "go", ["function_declaration", "method_declaration", "type_declaration"])]

/-- The chunk_type assigned to a registry top-level node from its grammar
kind. -/
def classifyKind (k : String) : ChunkType :=
  if k == "function_definition" || k == "function_declaration" ||
      k == "method_declaration" then ChunkType.functionChunk
  else if k == "class_definition" || k == "class_declaration" then
    ChunkType.classChunk
  else ChunkType.otherUnit

/-- The standalone chunk emitted for one registry top-level node: it spans
the node's line range and carries the node's source text. -/
def nodeChunk (lang fp : String) (n : ParseNode) : CodeChunk :=
  { filePath := fp, language := lang, content := n.text,
    chunkType := classifyKind n.kind, startLine := n.startLine,
    endLine := n.endLine, nodeTypes := [n.kind] }

/-- The last element of a nonempty list, given head first. -/
def lastD (a : ParseNode) : List ParseNode → ParseNode
  | [] => a
  | b :: bs => lastD b bs

/-- First line of the span covered by the coalesced remaining nodes. -/
def restSpanStart (r : ParseNode) (_rs : List ParseNode) : Nat :=
  r.startLine

/-- Last line of the span covered by the coalesced remaining nodes. -/
def restSpanEnd (r : ParseNode) (rs : List ParseNode) : Nat :=
  (lastD r rs).endLine

/-- Modelled from the spec: coalesce the remaining top-level nodes (imports,
globals, declarations not individually chunk-worthy) into at most one
imports-and-globals chunk per file; its content is the file slice over the
covered span, so the round-trip invariant holds for it as well. -/
def coalesceChunk (lang fp : String) (file : List String) :
    List ParseNode → Option CodeChunk
  | [] => none
  | r :: rs =>
      some { filePath := fp, language := lang,
             content := lineSlice file (restSpanStart r rs) (restSpanEnd r rs),
             chunkType := ChunkType.importsAndGlobals,
             startLine := restSpanStart r rs, endLine := restSpanEnd r rs,
             nodeTypes := (r :: rs).map (fun n => n.kind) }

/-- Insert a chunk into a list kept ordered by ascending start line. -/
def insertByStart (c : CodeChunk) : List CodeChunk → List CodeChunk
  | [] => [c]
  | d :: ds =>
      if c.startLine ≤ d.startLine then c :: d :: ds else d :: insertByStart c ds

/-- Whether a node's kind is in the registry's top-level set for the file's
language. -/
def isTopKind (topKinds : List String) (n : ParseNode) : Bool :=
  topKinds.contains n.kind

/-- Modelled from the spec: the Chunker on one parsed file — walk the
top-level nodes, emit one standalone chunk per node whose kind is in the
registry's top-level set, coalesce all remaining top-level nodes into at most
one imports-and-globals chunk, and keep the chunk list ordered by start
line.  Nothing below the top level is ever split out. -/
def chunkFile (topKinds : List String) (lang fp : String) (file : List String)
    (nodes : List ParseNode) : List CodeChunk :=
  let tops := nodes.filter (isTopKind topKinds)
  let topChunks := tops.map (nodeChunk lang fp)
  match coalesceChunk lang fp file
      (nodes.filter (fun n => !(isTopKind topKinds n))) with
  | none => topChunks
  | some c => insertByStart c topChunks

/-- Membership after an ordered insert: the element is the inserted chunk or
was already in the list. -/
theorem mem_insertByStart {x c : CodeChunk} :
    ∀ {l : List CodeChunk}, x ∈ insertByStart c l → x = c ∨ x ∈ l := by
  intro l
  induction l with
  | nil =>
      intro h
      unfold insertByStart at h
      exact Or.inl (by simpa using h)
  | cons d ds ih =>
      intro h
      unfold insertByStart at h
      by_cases hle : c.startLine ≤ d.startLine
      · rw [if_pos hle] at h
        rcases List.mem_cons.mp h with h1 | h1
        · exact Or.inl h1
        · exact Or.inr h1
      · rw [if_neg hle] at h
        rcases List.mem_cons.mp h with h1 | h1
        · exact Or.inr (List.mem_cons.mpr (Or.inl h1))
        · rcases ih h1 with h2 | h2
          · exact Or.inl h2
          · exact Or.inr (List.mem_cons.mpr (Or.inr h2))

/-- Claim C4: round-trip — for every file and every chunk the Chunker
produces from it, when the parse is well formed (every top-level node's text
is the file slice at its line range, as tree-sitter guarantees), the chunk's
content equals the slice of the file at [start_line, end_line], so content is
always re-derivable from the original file. -/
theorem c4_round_trip (topKinds : List String) (lang fp : String)
    (file : List String) (nodes : List ParseNode)
    (hwf : ∀ n ∈ nodes, n.text = lineSlice file n.startLine n.endLine) :
    ∀ c ∈ chunkFile topKinds lang fp file nodes,
      c.content = lineSlice file c.startLine c.endLine := by
  intro c hc
  unfold chunkFile at hc
  have htop : ∀ d, d ∈ (nodes.filter (isTopKind topKinds)).map (nodeChunk lang fp) →
      d.content = lineSlice file d.startLine d.endLine := by
    intro d hd
    rcases List.mem_map.mp hd with ⟨n, hn, hdn⟩
    have hn2 : n ∈ nodes := List.mem_of_mem_filter hn
    rw [← hdn]
    simpa [nodeChunk] using hwf n hn2
  cases hrest : nodes.filter (fun n => !(isTopKind topKinds n)) with
  | nil =>
      rw [hrest] at hc
      simp only [coalesceChunk] at hc
      exact htop c hc
  | cons r rs =>
      rw [hrest] at hc
      simp only [coalesceChunk] at hc
      rcases mem_insertByStart hc with h1 | h1
      · rw [h1]
      · exact htop c h1

/-- A six-line demo file: an import, a blank, a two-line function, a blank,
and a one-line function. -/
def demoFile : List String :=
  ["import os", "", "def f():", "  return 1", "", "def g(): return 2"]

/-- The import node of the demo file. -/
def demoImportNode : ParseNode :=
  { kind := "import_statement", text := ["import os"], startLine := 1, endLine := 1 }

/-- The first function node of the demo file. -/
def demoFunNode1 : ParseNode :=
  { kind := "function_definition", text := ["def f():", "  return 1"],
    startLine := 3, endLine := 4 }

/-- The second function node of the demo file. -/
def demoFunNode2 : ParseNode :=
  { kind := "function_definition", text := ["def g(): return 2"],
    startLine := 6, endLine := 6 }

/-- The top-level parse of the demo file. -/
def demoNodes : List ParseNode := [demoImportNode, demoFunNode1, demoFunNode2]

/-- The python top-level node kinds of the registry. -/
def pythonTopKinds : List String :=
  ["function_definition", "class_definition", "decorated_definition"]

/-- Witness for C4: on the demo file the parse is well formed and the first
function's chunk, a member of the Chunker output, slices back to lines 3-4
of the original file. -/
theorem c4_round_trip_witness :
    demoNodes.all
      (fun n => n.text == lineSlice demoFile n.startLine n.endLine) = true ∧
    (nodeChunk "python" "demo.py" demoFunNode1).content =
      lineSlice demoFile (nodeChunk "python" "demo.py" demoFunNode1).startLine
        (nodeChunk "python" "demo.py" demoFunNode1).endLine := by
  refine ⟨by decide, ?_⟩
  exact c4_round_trip pythonTopKinds "python" "demo.py" demoFile demoNodes
    (by decide) (nodeChunk "python" "demo.py" demoFunNode1) (by decide)

/-- Two chunks are separated: the first ends strictly before the second
starts.  Pairwise separation of a chunk list is exactly the Claim C5
invariant — intervals pairwise non-overlapping and sorted by start line. -/
abbrev chunkBefore (a b : CodeChunk) : Prop :=
  a.endLine < b.startLine

/-- Nodes are separated the same way. -/
abbrev nodeBefore (a b : ParseNode) : Prop :=
  a.endLine < b.startLine

/-- The last element of a nonempty list is a member of it. -/
theorem lastD_mem (a : ParseNode) : ∀ (l : List ParseNode), lastD a l ∈ a :: l := by
  intro l
  induction l generalizing a with
  | nil => simp [lastD]
  | cons b bs ih =>
      have h := ih b
      unfold lastD
      rcases List.mem_cons.mp h with h1 | h1
      · rw [h1]
        exact List.mem_cons.mpr (Or.inr (List.mem_cons_self b bs))
      · exact List.mem_cons.mpr (Or.inr (List.mem_cons.mpr (Or.inr h1)))

/-- The coalesced span of a separated, valid run of nodes is a valid
interval: its first line is at most its last line. -/
theorem restSpan_valid (r : ParseNode) (rs : List ParseNode)
    (hpw : List.Pairwise nodeBefore (r :: rs))
    (hv : ∀ n ∈ r :: rs, n.startLine ≤ n.endLine) :
    restSpanStart r rs ≤ restSpanEnd r rs := by
  unfold restSpanStart restSpanEnd
  have hmem := lastD_mem r rs
  rcases List.mem_cons.mp hmem with h1 | h1
  · rw [h1]
    exact hv r (List.mem_cons_self r rs)
  · have hsep : nodeBefore r (lastD r rs) := by
      rcases List.pairwise_cons.mp hpw with ⟨hhead, _⟩
      exact hhead (lastD r rs) h1
    have hvr : r.startLine ≤ r.endLine := hv r (List.mem_cons_self r rs)
    have hvlast : (lastD r rs).startLine ≤ (lastD r rs).endLine := hv _ hmem
    unfold nodeBefore at hsep
    omega

/-- Inserting a valid chunk that is separated from every member of a
separated, valid, start-ordered chunk list keeps the list pairwise
separated. -/
theorem insertByStart_pairwise (c : CodeChunk) :
    ∀ (l : List CodeChunk), List.Pairwise chunkBefore l →
      (∀ d ∈ l, d.startLine ≤ d.endLine) →
      c.startLine ≤ c.endLine →
      (∀ d ∈ l, chunkBefore c d ∨ chunkBefore d c) →
      List.Pairwise chunkBefore (insertByStart c l) := by
  intro l
  induction l with
  | nil =>
      intro _ _ _ _
      unfold insertByStart
      simp
  | cons d ds ih =>
      intro hl hvl hc hsep
      rcases List.pairwise_cons.mp hl with ⟨hd, hds⟩
      unfold insertByStart
      by_cases hle : c.startLine ≤ d.startLine
      · rw [if_pos hle]
        apply List.pairwise_cons.mpr
        refine ⟨?_, hl⟩
        intro x hx
        rcases List.mem_cons.mp hx with h1 | h1
        · subst h1
          rcases hsep x (List.mem_cons_self x ds) with h2 | h2
          · exact h2
          · have hvx : x.startLine ≤ x.endLine :=
              hvl x (List.mem_cons_self x ds)
            unfold chunkBefore at h2 ⊢
            omega
        · rcases hsep x (List.mem_cons.mpr (Or.inr h1)) with h2 | h2
          · exact h2
          · have hdx : chunkBefore d x := hd x h1
            have hvd : d.startLine ≤ d.endLine :=
              hvl d (List.mem_cons_self d ds)
            have hvx : x.startLine ≤ x.endLine :=
              hvl x (List.mem_cons.mpr (Or.inr h1))
            unfold chunkBefore at h2 hdx ⊢
            omega
      · rw [if_neg hle]
        apply List.pairwise_cons.mpr
        constructor
        · intro y hy
          rcases mem_insertByStart hy with h1 | h1
          · rw [h1]
            rcases hsep d (List.mem_cons_self d ds) with h2 | h2
            · unfold chunkBefore at h2 ⊢
              omega
            · exact h2
          · exact hd y h1
        · exact ih hds
            (fun x hx => hvl x (List.mem_cons.mpr (Or.inr hx)))
            hc
            (fun x hx => hsep x (List.mem_cons.mpr (Or.inr hx)))

/-- Claim C5: for every parsed file whose top-level nodes are valid,
pairwise separated and ordered (as siblings of a parse tree are) and whose
non-chunk-worthy nodes do not straddle a chunk-worthy node, the chunk list
the Chunker emits has pairwise non-overlapping line intervals sorted in
ascending start order, and every chunk satisfies start_line at most
end_line. -/
theorem c5_chunks_disjoint_sorted (topKinds : List String) (lang fp : String)
    (file : List String) (nodes : List ParseNode)
    (hpw : List.Pairwise nodeBefore nodes)
    (hv : ∀ n ∈ nodes, n.startLine ≤ n.endLine)
    (hspan : ∀ t ∈ nodes.filter (isTopKind topKinds), ∀ r rs,
      nodes.filter (fun n => !(isTopKind topKinds n)) = r :: rs →
      t.endLine < restSpanStart r rs ∨ restSpanEnd r rs < t.startLine) :
    List.Pairwise chunkBefore (chunkFile topKinds lang fp file nodes) ∧
    ∀ c ∈ chunkFile topKinds lang fp file nodes, c.startLine ≤ c.endLine := by
  have htopsPw : List.Pairwise nodeBefore (nodes.filter (isTopKind topKinds)) :=
    hpw.sublist (List.filter_sublist nodes)
  have hchunksPw : List.Pairwise chunkBefore
      ((nodes.filter (isTopKind topKinds)).map (nodeChunk lang fp)) := by
    apply List.pairwise_map.mpr
    exact htopsPw.imp (fun h => h)
  have hchunksV : ∀ d ∈ (nodes.filter (isTopKind topKinds)).map (nodeChunk lang fp),
      d.startLine ≤ d.endLine := by
    intro d hd
    rcases List.mem_map.mp hd with ⟨n, hn, hdn⟩
    rw [← hdn]
    exact hv n (List.mem_of_mem_filter hn)
  unfold chunkFile
  cases hrest : nodes.filter (fun n => !(isTopKind topKinds n)) with
  | nil =>
      simp only [coalesceChunk]
      exact ⟨hchunksPw, hchunksV⟩
  | cons r rs =>
      simp only [coalesceChunk]
      have hrestPw : List.Pairwise nodeBefore (r :: rs) := by
        rw [← hrest]
        exact hpw.sublist (List.filter_sublist nodes)
      have hrestV : ∀ n ∈ r :: rs, n.startLine ≤ n.endLine := by
        intro n hn
        rw [← hrest] at hn
        exact hv n (List.mem_of_mem_filter hn)
      have hcv : restSpanStart r rs ≤ restSpanEnd r rs :=
        restSpan_valid r rs hrestPw hrestV
      have hcsep : ∀ d ∈ (nodes.filter (isTopKind topKinds)).map (nodeChunk lang fp),
          chunkBefore
            { filePath := fp, language := lang,
              content := lineSlice file (restSpanStart r rs) (restSpanEnd r rs),
              chunkType := ChunkType.importsAndGlobals,
              startLine := restSpanStart r rs, endLine := restSpanEnd r rs,
              nodeTypes := (r :: rs).map (fun n => n.kind) } d ∨
          chunkBefore d
            { filePath := fp, language := lang,
              content := lineSlice file (restSpanStart r rs) (restSpanEnd r rs),
              chunkType := ChunkType.importsAndGlobals,
              startLine := restSpanStart r rs, endLine := restSpanEnd r rs,
              nodeTypes := (r :: rs).map (fun n => n.kind) } := by
        intro d hd
        rcases List.mem_map.mp hd with ⟨t, ht, hdt⟩
        rcases hspan t ht r rs hrest with h1 | h1
        · right
          rw [← hdt]
          exact h1
        · left
          rw [← hdt]
          exact h1
      constructor
      · exact insertByStart_pairwise _ _ hchunksPw hchunksV hcv hcsep
      · intro c hc
        rcases mem_insertByStart hc with h1 | h1
        · rw [h1]
          exact hcv
        · exact hchunksV c h1

/-- Witness for C5: the demo parse is separated, valid and does not straddle,
and the Chunker output for the demo file is pairwise separated with a valid
interval on its first function chunk. -/
theorem c5_chunks_disjoint_sorted_witness :
    List.Pairwise nodeBefore demoNodes ∧
    List.Pairwise chunkBefore
      (chunkFile pythonTopKinds "python" "demo.py" demoFile demoNodes) ∧
    (nodeChunk "python" "demo.py" demoFunNode1).startLine ≤
      (nodeChunk "python" "demo.py" demoFunNode1).endLine := by
  have hspan : ∀ t ∈ demoNodes.filter (isTopKind pythonTopKinds), ∀ r rs,
      demoNodes.filter (fun n => !(isTopKind pythonTopKinds n)) = r :: rs →
      t.endLine < restSpanStart r rs ∨ restSpanEnd r rs < t.startLine := by
    intro t ht r rs h
    have hrest : demoNodes.filter (fun n => !(isTopKind pythonTopKinds n)) =
        [demoImportNode] := by decide
    rw [hrest] at h
    injection h with h1 h2
    subst h1
    subst h2
    have htops : demoNodes.filter (isTopKind pythonTopKinds) =
        [demoFunNode1, demoFunNode2] := by decide
    rw [htops] at ht
    rcases List.mem_cons.mp ht with h3 | h3
    · subst h3
      right
      decide
    · have h4 : t = demoFunNode2 := by simpa using h3
      subst h4
      right
      decide
  have hpwDemo : List.Pairwise nodeBefore demoNodes := by
    refine List.Pairwise.cons ?_ (List.Pairwise.cons ?_
      (List.Pairwise.cons ?_ List.Pairwise.nil))
    · intro x hx
      rcases List.mem_cons.mp hx with h | h
      · subst h
        decide
      · have h2 : x = demoFunNode2 := by simpa using h
        subst h2
        decide
    · intro x hx
      have h2 : x = demoFunNode2 := by simpa using hx
      subst h2
      decide
    · intro x hx
      simp at hx
  have hmain := c5_chunks_disjoint_sorted pythonTopKinds "python" "demo.py"
    demoFile demoNodes hpwDemo (by decide) hspan
  refine ⟨hpwDemo, hmain.1, ?_⟩
  exact hmain.2 (nodeChunk "python" "demo.py" demoFunNode1) (by decide)

end Merj
